import Mathlib

/-!
Shallow embedding of `src/the_snake.py` (a Pygame snake game).

Coordinates are pixel positions, pairs of Python ints, modelled as `Int × Int`.
Randomness (`random.choice`, `random.randint`) is modelled by explicit oracle
arguments: `choice` over the four directions consumes one `Nat` (reduced mod 4),
and `randint lo hi` consumes one `Nat` (reduced into `[lo, hi]`), so every value
the model can produce is a value the library call can produce.  The unbounded
retry loop of `randomize_position` is modelled by a finite oracle stream of
candidate draws: a `none` result stands for the loop not having terminated
within the supplied draws.
-/

namespace TheSnake

abbrev Pos := Int × Int

abbrev Dir := Int × Int

def SCREEN_WIDTH : Int := 640

def SCREEN_HEIGHT : Int := 480

def GRID_SIZE : Int := 20

def GRID_WIDTH : Int := SCREEN_WIDTH / GRID_SIZE

def GRID_HEIGHT : Int := SCREEN_HEIGHT / GRID_SIZE

def UP : Dir := (0, -1)

def DOWN : Dir := (0, 1)

def LEFT : Dir := (-1, 0)

def RIGHT : Dir := (1, 0)

def INITIAL_FPS : Nat := 10

/-- The screen-center cell `(SCREEN_WIDTH // 2, SCREEN_HEIGHT // 2)`. -/
def center : Pos := (SCREEN_WIDTH / 2, SCREEN_HEIGHT / 2)

/-- The exact opposite of a direction vector. -/
def opposite (d : Dir) : Dir := (-d.1, -d.2)

/-- Model of `random.choice([UP, DOWN, LEFT, RIGHT])`: the oracle `r` picks an
index into the four-element list. -/
def choiceDir (r : Nat) : Dir :=
  match r % 4 with
  | 0 => UP
  | 1 => DOWN
  | 2 => LEFT
  | _ => RIGHT

/-- Model of `random.randint(lo, hi)` (inclusive bounds): the oracle `r` is
reduced into the range. -/
def randint (lo hi : Int) (r : Nat) : Int :=
  lo + (r : Int) % (hi - lo + 1)

/-- One candidate draw of `randomize_position`:
`(randint(0, GRID_WIDTH - 1) * GRID_SIZE, randint(0, GRID_HEIGHT - 1) * GRID_SIZE)`. -/
def randCandidate (rp : Nat × Nat) : Pos :=
  (randint 0 (GRID_WIDTH - 1) rp.1 * GRID_SIZE,
   randint 0 (GRID_HEIGHT - 1) rp.2 * GRID_SIZE)

/-- Shared body of `Apple.randomize_position` / `Poison.randomize_position` /
`Rock.randomize_position`: draw candidates until one is not in
`occupied_positions`.  The oracle stream `rng` supplies the draws; `none`
models the `while True` loop not terminating within the supplied draws. -/
def randomize_position (rng : List (Nat × Nat)) (occupied : List Pos) : Option Pos :=
  (rng.map randCandidate).find? (fun p => decide (p ∉ occupied))

/-- The mutable fields of the `Snake` object that the game logic reads. -/
structure Snake where
  length : Nat
  positions : List Pos
  direction : Dir
  next_direction : Option Dir
  last : Option Pos
deriving DecidableEq, Repr

/-- The initial snake built by `Snake.__init__`. -/
def Snake.init : Snake :=
  { length := 1
    positions := [center]
    direction := RIGHT
    next_direction := none
    last := none }

/-- Model of `Snake.get_head_position`: `self.positions[0]`.  The body list is
nonempty in every reachable state; the default is never consulted there. -/
def get_head_position (s : Snake) : Pos :=
  s.positions.headD center

/-- Model of `Snake.update_direction`: apply any buffered `next_direction`
unconditionally (all four direction tuples are truthy), then clear the buffer. -/
def update_direction (s : Snake) : Snake :=
  match s.next_direction with
  | some d => { s with direction := d, next_direction := none }
  | none => s

/-- Model of `Snake.reset`: the oracle `r` stands for the `random.choice` draw.
Note `next_direction` and `position` are untouched by the source. -/
def reset (s : Snake) (r : Nat) : Snake :=
  { s with
    length := 1
    positions := [center]
    direction := choiceDir r
    last := none }

/-- The wrapped new head computed at the top of `Snake.move`. -/
def new_head (s : Snake) : Pos :=
  (((get_head_position s).1 + s.direction.1 * GRID_SIZE) % SCREEN_WIDTH,
   ((get_head_position s).2 + s.direction.2 * GRID_SIZE) % SCREEN_HEIGHT)

/-- Model of `Snake.move`.  The oracle `r` is consumed only on the
self-collision `reset`.  The final `if len(self.positions) > self.length`
branch of the source is kept verbatim even though it follows the slice
truncation (`self.positions = self.positions[:self.length]`). -/
def move (s : Snake) (r : Nat) : Snake :=
  let nh := new_head s
  if 3 ≤ s.positions.length ∧ nh ∈ s.positions.drop 2 then
    reset s r
  else
    let ps := (nh :: s.positions).take s.length
    if s.length < ps.length then
      { s with positions := ps.dropLast, last := ps.getLast? }
    else
      { s with positions := ps }

/-- The key events the game reacts to: the four arrows, the two speed keys
`q` / `w`, escape, and any other key (silently ignored). -/
inductive Key where
  | up
  | down
  | left
  | right
  | q
  | w
  | esc
  | other
deriving DecidableEq, Repr

/-- The direction an arrow key requests; `none` for non-direction keys. -/
def keyDir : Key → Option Dir
  | .up => some UP
  | .down => some DOWN
  | .left => some LEFT
  | .right => some RIGHT
  | _ => none

/-- Model of `process_direction_keys`: each arrow buffers its direction into
`next_direction` unless the current applied direction is its exact opposite. -/
def process_direction_keys (k : Key) (s : Snake) : Snake :=
  match k with
  | .up => if s.direction ≠ DOWN then { s with next_direction := some UP } else s
  | .down => if s.direction ≠ UP then { s with next_direction := some DOWN } else s
  | .left => if s.direction ≠ RIGHT then { s with next_direction := some LEFT } else s
  | .right => if s.direction ≠ LEFT then { s with next_direction := some RIGHT } else s
  | _ => s

/-- Model of `process_misc_keys`: `q` slows down while `fps > 5`, `w` speeds up
while `fps < 20`; escape quits (`none` models the raised `SystemExit`). -/
def process_misc_keys (k : Key) (fps : Nat) : Option Nat :=
  match k with
  | .q => some (if 5 < fps then fps - 1 else fps)
  | .w => some (if fps < 20 then fps + 1 else fps)
  | .esc => none
  | _ => some fps

/-- Folding `process_misc_keys` over the key events of one tick, as
`handle_keys` does. -/
def run_misc (ks : List Key) (fps : Nat) : Option Nat :=
  ks.foldl (fun f k => f.bind (process_misc_keys k)) (some fps)

/-- Folding `process_direction_keys` over the key events of one tick, as
`handle_keys` does. -/
def run_direction (ks : List Key) (s : Snake) : Snake :=
  ks.foldl (fun t k => process_direction_keys k t) s

/-- The rock-collision step of `main`: on contact the snake resets and the
speed returns to `INITIAL_FPS`.  The oracle `r` feeds the reset. -/
def rock_step (s : Snake) (rocks : List Pos) (fps : Nat) (r : Nat) : Snake × Nat :=
  if get_head_position s ∈ rocks then (reset s r, INITIAL_FPS) else (s, fps)

/-- The poison-collision step of `main`: on contact the length shrinks to
`max(1, length - 1)` and the poison is relocated against the occupied set. -/
def poison_step (s : Snake) (poison : Pos) (occ : List Pos) (rng : List (Nat × Nat)) :
    Option (Snake × Pos) :=
  if get_head_position s = poison then
    (randomize_position rng occ).map fun p => ({ s with length := max 1 (s.length - 1) }, p)
  else
    some (s, poison)

/-- The apple loop of `main`: each apple whose cell the head occupies grows the
snake by one and is relocated against the occupied set; `rngs` holds one oracle
stream per apple.  Returns the new apple positions and the new length. -/
def appleLoop (head : Pos) (occ : List Pos) :
    List Pos → Nat → List (List (Nat × Nat)) → Option (List Pos × Nat)
  | [], len, _ => some ([], len)
  | a :: rest, len, rngs =>
    if head = a then
      match randomize_position (rngs.headD []) occ with
      | none => none
      | some p => (appleLoop head occ rest (len + 1) rngs.tail).map fun x => (p :: x.1, x.2)
    else
      (appleLoop head occ rest len rngs.tail).map fun x => (a :: x.1, x.2)

/-- The per-tick game state of `main`. -/
structure GameState where
  snake : Snake
  apples : List Pos
  poison : Pos
  rocks : List Pos
  fps : Nat
deriving DecidableEq, Repr

/-- The random draws one tick may consume. -/
structure Oracle where
  moveReset : Nat
  rockReset : Nat
  poisonRng : List (Nat × Nat)
  appleRngs : List (List (Nat × Nat))
deriving Repr

/-- The occupied set of one tick, computed right after `snake.move()`:
snake body, then apples, poison, rocks. -/
def occupiedOf (s : Snake) (g : GameState) : List Pos :=
  s.positions ++ g.apples ++ [g.poison] ++ g.rocks

/-- One iteration of the `while True` loop of `main` after input handling:
`update_direction`, `move`, occupied-set computation, then the rock, poison
and apple collision checks in source order.  `none` models a
`randomize_position` retry loop not terminating within its oracle stream. -/
def tick (g : GameState) (o : Oracle) : Option GameState :=
  let s1 := move (update_direction g.snake) o.moveReset
  let occ := occupiedOf s1 g
  let sf := rock_step s1 g.rocks g.fps o.rockReset
  match poison_step sf.1 g.poison occ o.poisonRng with
  | none => none
  | some (s2, poison2) =>
    match appleLoop (get_head_position s2) occ g.apples s2.length o.appleRngs with
    | none => none
    | some (apples2, len2) =>
      some ⟨{ s2 with length := len2 }, apples2, poison2, g.rocks, sf.2⟩

/-- Grid-aligned and inside the `[0, SCREEN_WIDTH) × [0, SCREEN_HEIGHT)` board. -/
def alignedInBounds (p : Pos) : Prop :=
  p.1 % GRID_SIZE = 0 ∧ p.2 % GRID_SIZE = 0 ∧
    0 ≤ p.1 ∧ p.1 < SCREEN_WIDTH ∧ 0 ≤ p.2 ∧ p.2 < SCREEN_HEIGHT

instance (p : Pos) : Decidable (alignedInBounds p) := by
  unfold alignedInBounds
  infer_instance

/-- The last surviving buffered direction according to the spec sentence
`if multiple direction keys arrive in one tick, only the last non-conflicting
one survives`.  This definition follows the spec words (keys whose direction is
the exact opposite of the applied direction `d` are rejected, later keys win)
and is compared against the fold of the source model `process_direction_keys`. -/
def last_non_conflicting (d : Dir) : List Key → Option Dir
  | [] => none
  | k :: ks =>
    match last_non_conflicting d ks with
    | some x => some x
    | none =>
      match keyDir k with
      | some x => if x = opposite d then none else some x
      | none => none

/-! ## Helper lemmas -/

theorem choiceDir_mem (r : Nat) : choiceDir r ∈ [UP, DOWN, LEFT, RIGHT] := by
  unfold choiceDir
  split <;> simp

theorem randomize_position_not_mem (rng : List (Nat × Nat)) (occ : List Pos) (p : Pos)
    (h : randomize_position rng occ = some p) : p ∉ occ := by
  have := List.find?_some h
  simpa using this

theorem randomize_position_shape (rng : List (Nat × Nat)) (occ : List Pos) (p : Pos)
    (h : randomize_position rng occ = some p) : ∃ rp ∈ rng, p = randCandidate rp := by
  have hm := List.mem_of_find?_eq_some h
  rw [List.mem_map] at hm
  obtain ⟨rp, hrp, hp⟩ := hm
  exact ⟨rp, hrp, hp.symm⟩

theorem randCandidate_alignedInBounds (rp : Nat × Nat) :
    alignedInBounds (randCandidate rp) := by
  unfold alignedInBounds randCandidate randint GRID_WIDTH GRID_HEIGHT SCREEN_WIDTH
    SCREEN_HEIGHT GRID_SIZE
  refine ⟨?_, ?_, ?_, ?_, ?_, ?_⟩ <;> simp <;> omega

theorem center_alignedInBounds : alignedInBounds center := by decide

theorem new_head_alignedInBounds (s : Snake) (h : alignedInBounds (get_head_position s)) :
    alignedInBounds (new_head s) := by
  obtain ⟨h1, h2, h3, h4, h5, h6⟩ := h
  unfold alignedInBounds new_head GRID_SIZE SCREEN_WIDTH SCREEN_HEIGHT at *
  dsimp only at *
  omega

theorem run_misc_none (ks : List Key) :
    ks.foldl (fun f k => f.bind (process_misc_keys k)) none = none := by
  induction ks with
  | nil => rfl
  | cons k ks ih => simpa using ih

theorem run_misc_bounds (ks : List Key) : ∀ fps f2 : Nat, 5 ≤ fps → fps ≤ 20 →
    run_misc ks fps = some f2 → 5 ≤ f2 ∧ f2 ≤ 20 := by
  induction ks with
  | nil =>
    intro fps f2 h5 h20 h
    injection h with h
    omega
  | cons k ks ih =>
    intro fps f2 h5 h20 h
    cases k with
    | q =>
      refine ih (if 5 < fps then fps - 1 else fps) f2 ?_ ?_ h <;> split <;> omega
    | w =>
      refine ih (if fps < 20 then fps + 1 else fps) f2 ?_ ?_ h <;> split <;> omega
    | esc =>
      rw [show run_misc (Key.esc :: ks) fps
          = ks.foldl (fun f k => f.bind (process_misc_keys k)) none from rfl,
        run_misc_none] at h
      exact absurd h (by simp)
    | up => exact ih fps f2 h5 h20 h
    | down => exact ih fps f2 h5 h20 h
    | left => exact ih fps f2 h5 h20 h
    | right => exact ih fps f2 h5 h20 h
    | other => exact ih fps f2 h5 h20 h

theorem opposite_opposite (d : Dir) : opposite (opposite d) = d := by
  cases d
  simp [opposite]

theorem eq_opposite_iff (x d : Dir) : x = opposite d ↔ d = opposite x := by
  constructor
  · intro h
    rw [h, opposite_opposite]
  · intro h
    rw [h, opposite_opposite]

theorem process_direction_keys_direction (k : Key) (s : Snake) :
    (process_direction_keys k s).direction = s.direction := by
  cases k <;> simp only [process_direction_keys] <;> (try split) <;> rfl

theorem run_direction_next (d : Dir) (ks : List Key) :
    ∀ s : Snake, s.direction = d →
      (run_direction ks s).direction = d ∧
      (run_direction ks s).next_direction
        = (last_non_conflicting d ks).or s.next_direction := by
  induction ks with
  | nil =>
    intro s hs
    exact ⟨hs, rfl⟩
  | cons k ks ih =>
    intro s hs
    have hrw : run_direction (k :: ks) s = run_direction ks (process_direction_keys k s) := rfl
    have hdir : (process_direction_keys k s).direction = s.direction :=
      process_direction_keys_direction k s
    obtain ⟨ih1, ih2⟩ := ih (process_direction_keys k s) (hdir.trans hs)
    rw [hrw]
    refine ⟨ih1, ?_⟩
    rw [ih2]
    conv_rhs => rw [last_non_conflicting]
    cases hlast : last_non_conflicting d ks with
    | some x => rfl
    | none =>
      cases k with
      | up =>
        by_cases hd : UP = opposite d
        · have hsd : s.direction = DOWN := by
            rw [hs, (eq_opposite_iff UP d).mp hd]
            decide
          have hp : process_direction_keys Key.up s = s := by
            show (if s.direction ≠ DOWN then { s with next_direction := some UP } else s) = s
            rw [if_neg (fun hcon => hcon hsd)]
          rw [hp]
          dsimp only [keyDir]
          rw [if_pos hd]
        · have hsd : s.direction ≠ DOWN := by
            intro hcon
            exact hd (by rw [hs.symm.trans hcon]; decide)
          have hp : (process_direction_keys Key.up s).next_direction = some UP := by
            show (if s.direction ≠ DOWN then { s with next_direction := some UP } else s).next_direction = some UP
            rw [if_pos hsd]
          rw [hp]
          dsimp only [keyDir]
          rw [if_neg hd]
          rfl
      | down =>
        by_cases hd : DOWN = opposite d
        · have hsd : s.direction = UP := by
            rw [hs, (eq_opposite_iff DOWN d).mp hd]
            decide
          have hp : process_direction_keys Key.down s = s := by
            show (if s.direction ≠ UP then { s with next_direction := some DOWN } else s) = s
            rw [if_neg (fun hcon => hcon hsd)]
          rw [hp]
          dsimp only [keyDir]
          rw [if_pos hd]
        · have hsd : s.direction ≠ UP := by
            intro hcon
            exact hd (by rw [hs.symm.trans hcon]; decide)
          have hp : (process_direction_keys Key.down s).next_direction = some DOWN := by
            show (if s.direction ≠ UP then { s with next_direction := some DOWN } else s).next_direction = some DOWN
            rw [if_pos hsd]
          rw [hp]
          dsimp only [keyDir]
          rw [if_neg hd]
          rfl
      | left =>
        by_cases hd : LEFT = opposite d
        · have hsd : s.direction = RIGHT := by
            rw [hs, (eq_opposite_iff LEFT d).mp hd]
            decide
          have hp : process_direction_keys Key.left s = s := by
            show (if s.direction ≠ RIGHT then { s with next_direction := some LEFT } else s) = s
            rw [if_neg (fun hcon => hcon hsd)]
          rw [hp]
          dsimp only [keyDir]
          rw [if_pos hd]
        · have hsd : s.direction ≠ RIGHT := by
            intro hcon
            exact hd (by rw [hs.symm.trans hcon]; decide)
          have hp : (process_direction_keys Key.left s).next_direction = some LEFT := by
            show (if s.direction ≠ RIGHT then { s with next_direction := some LEFT } else s).next_direction = some LEFT
            rw [if_pos hsd]
          rw [hp]
          dsimp only [keyDir]
          rw [if_neg hd]
          rfl
      | right =>
        by_cases hd : RIGHT = opposite d
        · have hsd : s.direction = LEFT := by
            rw [hs, (eq_opposite_iff RIGHT d).mp hd]
            decide
          have hp : process_direction_keys Key.right s = s := by
            show (if s.direction ≠ LEFT then { s with next_direction := some RIGHT } else s) = s
            rw [if_neg (fun hcon => hcon hsd)]
          rw [hp]
          dsimp only [keyDir]
          rw [if_pos hd]
        · have hsd : s.direction ≠ LEFT := by
            intro hcon
            exact hd (by rw [hs.symm.trans hcon]; decide)
          have hp : (process_direction_keys Key.right s).next_direction = some RIGHT := by
            show (if s.direction ≠ LEFT then { s with next_direction := some RIGHT } else s).next_direction = some RIGHT
            rw [if_pos hsd]
          rw [hp]
          dsimp only [keyDir]
          rw [if_neg hd]
          rfl
      | q => rfl
      | w => rfl
      | esc => rfl
      | other => rfl

theorem appleLoop_no_hit (head : Pos) (occ : List Pos) (apples : List Pos) :
    ∀ (len : Nat) (rngs : List (List (Nat × Nat))), head ∉ apples →
      appleLoop head occ apples len rngs = some (apples, len) := by
  induction apples with
  | nil =>
    intro len rngs h
    rfl
  | cons a rest ih =>
    intro len rngs h
    have h1 : head ≠ a := fun hcon => h (by rw [hcon]; exact List.mem_cons_self a rest)
    have h2 : head ∉ rest := fun hcon => h (List.mem_cons_of_mem a hcon)
    rw [appleLoop, if_neg h1, ih len rngs.tail h2]
    rfl

/-! ## Claim theorems -/

/-- C2 counterexample: a snake facing RIGHT whose buffer holds LEFT (the exact
opposite of RIGHT).  One advance (`update_direction` then `move`) applies the
buffered opposite: the applied direction becomes LEFT, not RIGHT, so the
buffered opposite is applied, not rejected. -/
theorem C2_counterexample :
    (⟨1, [(320, 240)], RIGHT, some LEFT, none⟩ : Snake).next_direction
      = some (opposite (⟨1, [(320, 240)], RIGHT, some LEFT, none⟩ : Snake).direction) ∧
    (move (update_direction ⟨1, [(320, 240)], RIGHT, some LEFT, none⟩) 0).direction = LEFT ∧
    LEFT ≠ RIGHT := by
  decide

/-- C2 (amended): `update_direction` applies any buffered direction
unconditionally, even the exact opposite of the current one, and clears the
buffer; when the move does not trigger a self-collision reset, the applied
direction after the advance is the buffered value.  The opposite-direction
rejection happens only at buffering time in `process_direction_keys`. -/
theorem C2_buffer_applied_unconditionally (s : Snake) (d : Dir) (r : Nat)
    (h : s.next_direction = some d)
    (hnc : ¬ (3 ≤ (update_direction s).positions.length ∧
        new_head (update_direction s) ∈ (update_direction s).positions.drop 2)) :
    (update_direction s).direction = d ∧
    (update_direction s).next_direction = none ∧
    (move (update_direction s) r).direction = d := by
  have hu : update_direction s = { s with direction := d, next_direction := none } := by
    unfold update_direction
    rw [h]
  refine ⟨by rw [hu], by rw [hu], ?_⟩
  unfold move
  dsimp only
  rw [if_neg hnc]
  split <;> rw [hu]

/-- C2 witness: the amended theorem applied at a concrete snake with a buffered
opposite direction. -/
theorem C2_buffer_applied_witness :
    (⟨1, [(320, 240)], RIGHT, some LEFT, none⟩ : Snake).next_direction = some LEFT ∧
    (update_direction ⟨1, [(320, 240)], RIGHT, some LEFT, none⟩).direction = LEFT ∧
    (update_direction ⟨1, [(320, 240)], RIGHT, some LEFT, none⟩).next_direction = none ∧
    (move (update_direction ⟨1, [(320, 240)], RIGHT, some LEFT, none⟩) 0).direction = LEFT := by
  refine ⟨by decide, ?_⟩
  have h := C2_buffer_applied_unconditionally ⟨1, [(320, 240)], RIGHT, some LEFT, none⟩
    LEFT 0 (by decide) (by decide)
  exact ⟨h.1, h.2.1, h.2.2⟩

/-- C4: the source checks `len(self.positions) > self.length` only after the
slice `self.positions = self.positions[:self.length]`, so the check is dead and
`last` is never set by `move`: for every snake, `move` leaves `last` unchanged
(or clears it on a self-collision reset).  At the concrete input below the
tail cell `(320, 240)` is removed by the truncation yet `last` stays `none`. -/
theorem C4_last_never_recorded :
    (∀ (s : Snake) (r : Nat), (move s r).last = s.last ∨ (move s r).last = none) ∧
    (move ⟨1, [(320, 240)], RIGHT, none, none⟩ 0).positions = [(340, 240)] ∧
    (move ⟨1, [(320, 240)], RIGHT, none, none⟩ 0).last = none := by
  refine ⟨?_, by decide, by decide⟩
  intro s r
  unfold move
  dsimp only
  split
  · right
    rfl
  · split
    · next hlen =>
      exfalso
      rw [List.length_take] at hlen
      omega
    · left
      rfl

/-- C5: whenever the head occupies a rock's cell, the rock-collision step of
`main` resets the snake (length 1, body the single center cell, `last`
cleared, direction one of the four unit directions, the one picked by the
`random.choice` draw) and restores the speed to the initial default 10. -/
theorem C5_rock_reset (s : Snake) (rocks : List Pos) (fps : Nat) (r : Nat)
    (h : get_head_position s ∈ rocks) :
    (rock_step s rocks fps r).1.length = 1 ∧
    (rock_step s rocks fps r).1.positions = [center] ∧
    (rock_step s rocks fps r).1.last = none ∧
    (rock_step s rocks fps r).1.direction ∈ [UP, DOWN, LEFT, RIGHT] ∧
    (rock_step s rocks fps r).2 = 10 := by
  unfold rock_step
  rw [if_pos h]
  exact ⟨rfl, rfl, rfl, choiceDir_mem r, rfl⟩

/-- C5 witness: the rock-collision reset at a concrete snake sitting on a rock. -/
theorem C5_rock_reset_witness :
    get_head_position ⟨1, [(100, 100)], RIGHT, none, none⟩ ∈ [((100 : Int), (100 : Int))] ∧
    ((rock_step ⟨1, [(100, 100)], RIGHT, none, none⟩ [(100, 100)] 15 2).1.length = 1 ∧
     (rock_step ⟨1, [(100, 100)], RIGHT, none, none⟩ [(100, 100)] 15 2).1.positions = [center] ∧
     (rock_step ⟨1, [(100, 100)], RIGHT, none, none⟩ [(100, 100)] 15 2).1.last = none ∧
     (rock_step ⟨1, [(100, 100)], RIGHT, none, none⟩ [(100, 100)] 15 2).1.direction
        ∈ [UP, DOWN, LEFT, RIGHT] ∧
     (rock_step ⟨1, [(100, 100)], RIGHT, none, none⟩ [(100, 100)] 15 2).2 = 10) :=
  ⟨by decide, C5_rock_reset ⟨1, [(100, 100)], RIGHT, none, none⟩ [(100, 100)] 15 2 (by decide)⟩

/-- C6: when the head occupies the poison's cell and the poison step completes,
the new length is `max 1 (length - 1)`: it is at least 1, stays 1 when it was
1, and drops by exactly 1 when it was at least 2. -/
theorem C6_poison_shrink (s : Snake) (poison : Pos) (occ : List Pos)
    (rng : List (Nat × Nat)) (s2 : Snake) (p2 : Pos)
    (hh : get_head_position s = poison)
    (hr : poison_step s poison occ rng = some (s2, p2)) :
    s2.length = max 1 (s.length - 1) ∧ 1 ≤ s2.length ∧
    (s.length = 1 → s2.length = 1) ∧ (2 ≤ s.length → s2.length + 1 = s.length) := by
  unfold poison_step at hr
  rw [if_pos hh] at hr
  cases hfind : randomize_position rng occ with
  | none =>
    rw [hfind] at hr
    exact absurd hr (by simp)
  | some p =>
    rw [hfind] at hr
    simp only [Option.map_some', Option.some.injEq, Prod.mk.injEq] at hr
    have hlen : s2.length = max 1 (s.length - 1) := by rw [← hr.1]
    refine ⟨hlen, ?_, ?_, ?_⟩ <;> omega

/-- C6 witness: a length-2 snake eating poison shrinks to length 1, and a
length-1 snake eating poison stays at length 1. -/
theorem C6_poison_shrink_witness :
    get_head_position ⟨1, [(0, 0)], RIGHT, none, none⟩ = (0, 0) ∧
    poison_step ⟨1, [(0, 0)], RIGHT, none, none⟩ (0, 0) [(0, 0)] [(1, 1)]
      = some (⟨1, [(0, 0)], RIGHT, none, none⟩, (20, 20)) ∧
    ((⟨1, [(0, 0)], RIGHT, none, none⟩ : Snake).length = 1 →
      (⟨1, [(0, 0)], RIGHT, none, none⟩ : Snake).length = 1) := by
  refine ⟨by decide, by decide, ?_⟩
  have h := C6_poison_shrink ⟨1, [(0, 0)], RIGHT, none, none⟩ (0, 0) [(0, 0)] [(1, 1)]
    ⟨1, [(0, 0)], RIGHT, none, none⟩ (20, 20) (by decide) (by decide)
  exact h.2.2.1

/-- C8: starting from the initial fps of 10, the speed stays within `[5, 20]`
under every sequence of key events that does not quit: `q` decrements only
while `fps > 5` and `w` increments only while `fps < 20`. -/
theorem C8_fps_bounds (ks : List Key) (f2 : Nat)
    (h : run_misc ks INITIAL_FPS = some f2) : 5 ≤ f2 ∧ f2 ≤ 20 :=
  run_misc_bounds ks INITIAL_FPS f2 (by decide) (by decide) h

/-- C8 witness: a concrete key sequence from the initial speed. -/
theorem C8_fps_bounds_witness :
    run_misc [Key.q, Key.q, Key.w] INITIAL_FPS = some 9 ∧ 5 ≤ 9 ∧ 9 ≤ 20 :=
  ⟨by decide, C8_fps_bounds [Key.q, Key.q, Key.w] 9 (by decide)⟩

/-- C10: `Snake.reset` does not touch the `next_direction` buffer, so a
direction buffered before a collision-triggered reset survives the reset and
is applied by the following tick's `update_direction`, whatever the new random
direction is. -/
theorem C10_reset_keeps_buffer (s : Snake) (d : Dir) (r : Nat)
    (h : s.next_direction = some d) :
    (reset s r).next_direction = some d ∧
    (update_direction (reset s r)).direction = d := by
  have hb : (reset s r).next_direction = some d := h
  refine ⟨hb, ?_⟩
  unfold update_direction
  rw [hb]

/-- C10 witness: a buffered UP survives a reset whose random draw picks DOWN,
and is applied next tick even though UP is the exact opposite of DOWN. -/
theorem C10_reset_keeps_buffer_witness :
    (⟨1, [(320, 240)], RIGHT, some UP, none⟩ : Snake).next_direction = some UP ∧
    (reset ⟨1, [(320, 240)], RIGHT, some UP, none⟩ 1).direction = DOWN ∧
    UP = opposite DOWN ∧
    (reset ⟨1, [(320, 240)], RIGHT, some UP, none⟩ 1).next_direction = some UP ∧
    (update_direction (reset ⟨1, [(320, 240)], RIGHT, some UP, none⟩ 1)).direction = UP := by
  refine ⟨by decide, by decide, by decide, ?_⟩
  exact C10_reset_keeps_buffer ⟨1, [(320, 240)], RIGHT, some UP, none⟩ UP 1 (by decide)

/-- C3: a direction-key event whose direction is the exact opposite of the
snake's applied direction leaves the snake (hence the buffer) unchanged; a
non-opposite direction key overwrites the buffer; and over the key events of
one tick the buffer ends as the last non-conflicting direction key, or keeps
its prior value when no such key arrived. -/
theorem C3_direction_keys (s : Snake) (k : Key) (d : Dir) (ks : List Key) :
    (keyDir k = some (opposite s.direction) → process_direction_keys k s = s) ∧
    (keyDir k = some d → d ≠ opposite s.direction →
      (process_direction_keys k s).next_direction = some d) ∧
    (run_direction ks s).next_direction
      = (last_non_conflicting s.direction ks).or s.next_direction := by
  refine ⟨?_, ?_, (run_direction_next s.direction ks s rfl).2⟩
  · intro h
    cases k with
    | up =>
      have h2 : UP = opposite s.direction := Option.some.inj h
      have hsd : s.direction = DOWN := by
        rw [(eq_opposite_iff UP s.direction).mp h2]
        decide
      show (if s.direction ≠ DOWN then { s with next_direction := some UP } else s) = s
      rw [if_neg (fun hcon => hcon hsd)]
    | down =>
      have h2 : DOWN = opposite s.direction := Option.some.inj h
      have hsd : s.direction = UP := by
        rw [(eq_opposite_iff DOWN s.direction).mp h2]
        decide
      show (if s.direction ≠ UP then { s with next_direction := some DOWN } else s) = s
      rw [if_neg (fun hcon => hcon hsd)]
    | left =>
      have h2 : LEFT = opposite s.direction := Option.some.inj h
      have hsd : s.direction = RIGHT := by
        rw [(eq_opposite_iff LEFT s.direction).mp h2]
        decide
      show (if s.direction ≠ RIGHT then { s with next_direction := some LEFT } else s) = s
      rw [if_neg (fun hcon => hcon hsd)]
    | right =>
      have h2 : RIGHT = opposite s.direction := Option.some.inj h
      have hsd : s.direction = LEFT := by
        rw [(eq_opposite_iff RIGHT s.direction).mp h2]
        decide
      show (if s.direction ≠ LEFT then { s with next_direction := some RIGHT } else s) = s
      rw [if_neg (fun hcon => hcon hsd)]
    | q => exact Option.noConfusion h
    | w => exact Option.noConfusion h
    | esc => exact Option.noConfusion h
    | other => exact Option.noConfusion h
  · intro h hd
    cases k with
    | up =>
      have h2 : d = UP := (Option.some.inj h).symm
      subst h2
      have hsd : s.direction ≠ DOWN := by
        intro hcon
        exact hd (by rw [hcon]; decide)
      show (if s.direction ≠ DOWN then { s with next_direction := some UP } else s).next_direction
        = some UP
      rw [if_pos hsd]
    | down =>
      have h2 : d = DOWN := (Option.some.inj h).symm
      subst h2
      have hsd : s.direction ≠ UP := by
        intro hcon
        exact hd (by rw [hcon]; decide)
      show (if s.direction ≠ UP then { s with next_direction := some DOWN } else s).next_direction
        = some DOWN
      rw [if_pos hsd]
    | left =>
      have h2 : d = LEFT := (Option.some.inj h).symm
      subst h2
      have hsd : s.direction ≠ RIGHT := by
        intro hcon
        exact hd (by rw [hcon]; decide)
      show (if s.direction ≠ RIGHT then { s with next_direction := some LEFT } else s).next_direction
        = some LEFT
      rw [if_pos hsd]
    | right =>
      have h2 : d = RIGHT := (Option.some.inj h).symm
      subst h2
      have hsd : s.direction ≠ LEFT := by
        intro hcon
        exact hd (by rw [hcon]; decide)
      show (if s.direction ≠ LEFT then { s with next_direction := some RIGHT } else s).next_direction
        = some RIGHT
      rw [if_pos hsd]
    | q => exact Option.noConfusion h
    | w => exact Option.noConfusion h
    | esc => exact Option.noConfusion h
    | other => exact Option.noConfusion h

/-- C3 witness: on the initial snake (facing RIGHT), a LEFT key (the exact
opposite) is rejected, and of the tick's keys UP, LEFT, DOWN only the last
non-conflicting one (DOWN) survives in the buffer. -/
theorem C3_direction_keys_witness :
    keyDir Key.left = some (opposite Snake.init.direction) ∧
    process_direction_keys Key.left Snake.init = Snake.init ∧
    (run_direction [Key.up, Key.left, Key.down] Snake.init).next_direction = some DOWN := by
  refine ⟨by decide,
    (C3_direction_keys Snake.init Key.left LEFT [Key.up, Key.left, Key.down]).1 (by decide), ?_⟩
  have h := (C3_direction_keys Snake.init Key.left LEFT [Key.up, Key.left, Key.down]).2.2
  rw [h]
  decide

/-- C7: whenever the apple loop of `main` completes, the snake's length grows
by exactly 1 for each apple whose cell the head occupies, and every relocated
apple's new position avoids the tick's occupied set (positions of apples the
head does not occupy are unchanged). -/
theorem C7_apple_growth (head : Pos) (occ : List Pos) (apples : List Pos) (len : Nat)
    (rngs : List (List (Nat × Nat))) (apples2 : List Pos) (len2 : Nat)
    (h : appleLoop head occ apples len rngs = some (apples2, len2)) :
    len2 = len + apples.count head ∧
    List.Forall₂ (fun a a2 => (head ≠ a ∧ a2 = a) ∨ (head = a ∧ a2 ∉ occ)) apples apples2 := by
  induction apples generalizing len rngs apples2 len2 with
  | nil =>
    rw [appleLoop] at h
    simp only [Option.some.injEq, Prod.mk.injEq] at h
    obtain ⟨h1, h2⟩ := h
    subst h1
    subst h2
    exact ⟨by simp, List.Forall₂.nil⟩
  | cons a rest ih =>
    rw [appleLoop] at h
    by_cases hh : head = a
    · rw [if_pos hh] at h
      cases hfind : randomize_position (rngs.headD []) occ with
      | none =>
        rw [hfind] at h
        exact absurd h (by simp)
      | some p =>
        rw [hfind] at h
        cases hrec : appleLoop head occ rest (len + 1) rngs.tail with
        | none =>
          rw [hrec] at h
          exact absurd h (by simp)
        | some x =>
          rw [hrec] at h
          simp only [Option.map_some', Option.some.injEq, Prod.mk.injEq] at h
          obtain ⟨h1, h2⟩ := h
          obtain ⟨ihc, ihf⟩ := ih (len + 1) rngs.tail x.1 x.2 (by rw [hrec])
          constructor
          · rw [← h2, ihc, List.count_cons]
            simp only [hh, beq_self_eq_true, if_true]
            omega
          · rw [← h1]
            exact List.Forall₂.cons
              (Or.inr ⟨hh, randomize_position_not_mem (rngs.headD []) occ p hfind⟩) ihf
    · rw [if_neg hh] at h
      cases hrec : appleLoop head occ rest len rngs.tail with
      | none =>
        rw [hrec] at h
        exact absurd h (by simp)
      | some x =>
        rw [hrec] at h
        simp only [Option.map_some', Option.some.injEq, Prod.mk.injEq] at h
        obtain ⟨h1, h2⟩ := h
        obtain ⟨ihc, ihf⟩ := ih len rngs.tail x.1 x.2 (by rw [hrec])
        constructor
        · rw [← h2, ihc, List.count_cons]
          have hne : ¬ (a == head) = true := by
            simp only [beq_iff_eq]
            exact fun hcon => hh hcon.symm
          simp only [if_neg hne]
          omega
        · rw [← h1]
          exact List.Forall₂.cons (Or.inl ⟨hh, rfl⟩) ihf

/-- C7 witness: a concrete apple-loop run in which the head sits on the first
of two apples; the length grows from 1 to 2 and the relocated apple lands off
the occupied set. -/
theorem C7_apple_growth_witness :
    appleLoop (0, 0) [(0, 0), (20, 0)] [(0, 0), (20, 0)] 1 [[(2, 0)], []]
      = some ([(40, 0), (20, 0)], 2) ∧
    (2 = 1 + ([((0 : Int), (0 : Int)), (20, 0)].count (0, 0)) ∧
     List.Forall₂
       (fun a a2 => (((0 : Int), (0 : Int)) ≠ a ∧ a2 = a) ∨ ((0, 0) = a ∧ a2 ∉ [((0 : Int), (0 : Int)), (20, 0)]))
       [(0, 0), (20, 0)] [(40, 0), (20, 0)]) :=
  ⟨by decide,
   C7_apple_growth (0, 0) [(0, 0), (20, 0)] [(0, 0), (20, 0)] 1 [[(2, 0)], []]
     [(40, 0), (20, 0)] 2 (by decide)⟩

/-- C9: positions are always grid-aligned and in bounds: the head after a
non-reset advance of a snake whose cells are aligned and in bounds, every
position returned by `randomize_position`, and the center cell of `reset`, are
all multiples of `GRID_SIZE` inside `[0, 640) × [0, 480)`. -/
theorem C9_grid_alignment (s : Snake) (rng : List (Nat × Nat)) (occ : List Pos)
    (p : Pos) (r : Nat)
    (hs : ∀ q ∈ s.positions, alignedInBounds q)
    (hr : randomize_position rng occ = some p) :
    alignedInBounds (new_head s) ∧ alignedInBounds p ∧
    alignedInBounds (get_head_position (reset s r)) := by
  refine ⟨?_, ?_, center_alignedInBounds⟩
  · apply new_head_alignedInBounds
    unfold get_head_position
    cases hps : s.positions with
    | nil => exact center_alignedInBounds
    | cons a l => exact hs a (by rw [hps]; exact List.mem_cons_self a l)
  · obtain ⟨rp, _, hp⟩ := randomize_position_shape rng occ p hr
    rw [hp]
    exact randCandidate_alignedInBounds rp

/-- C9 witness: the initial snake and a concrete successful relocation. -/
theorem C9_grid_alignment_witness :
    (∀ q ∈ Snake.init.positions, alignedInBounds q) ∧
    randomize_position [(0, 0)] [] = some (0, 0) ∧
    (alignedInBounds (new_head Snake.init) ∧ alignedInBounds ((0 : Int), (0 : Int)) ∧
     alignedInBounds (get_head_position (reset Snake.init 0))) :=
  ⟨by decide, by decide,
   C9_grid_alignment Snake.init [(0, 0)] [] (0, 0) 0 (by decide) (by decide)⟩

/-- C1 counterexample: a 4-cell snake whose advance runs into `positions[2:]`
resets inside `move` (body becomes the single center cell), yet the tick's
apple check still fires against the reset head: with one apple on the center
cell the tick ends with length 2 and a relocated apple, so the rock, poison
and apple checks are evaluated and length and item positions do change on a
self-collision tick. -/
theorem C1_counterexample :
    (move (update_direction ⟨4, [(0, 0), (20, 0), (20, 20), (0, 20)], DOWN, none, none⟩)
        0).positions = [(320, 240)] ∧
    (move (update_direction ⟨4, [(0, 0), (20, 0), (20, 20), (0, 20)], DOWN, none, none⟩)
        0).length = 1 ∧
    (tick ⟨⟨4, [(0, 0), (20, 0), (20, 20), (0, 20)], DOWN, none, none⟩,
        [(320, 240)], (600, 460), [(100, 100), (200, 200)], 10⟩
        ⟨0, 0, [], [[(2, 0)]]⟩).map (fun g2 => g2.snake.length) = some 2 ∧
    (tick ⟨⟨4, [(0, 0), (20, 0), (20, 20), (0, 20)], DOWN, none, none⟩,
        [(320, 240)], (600, 460), [(100, 100), (200, 200)], 10⟩
        ⟨0, 0, [], [[(2, 0)]]⟩).map (fun g2 => g2.apples) = some [(40, 0)] := by
  decide

/-- C1 (amended): when the advanced head hits `positions[2:]` of a body of at
least 3 cells, `move` resets the snake in place and returns at once (no
insert or truncation this tick); the rock, poison and apple checks of `main`
still run afterwards against the reset snake's center head, so length, fps and
item positions are unchanged that tick exactly when no rock, poison or apple
occupies the center cell. -/
theorem C1_self_collision_reset (g : GameState) (o : Oracle)
    (h3 : 3 ≤ (update_direction g.snake).positions.length)
    (hc : new_head (update_direction g.snake) ∈ (update_direction g.snake).positions.drop 2)
    (hrock : center ∉ g.rocks) (hpois : center ≠ g.poison) (happ : center ∉ g.apples) :
    move (update_direction g.snake) o.moveReset = reset (update_direction g.snake) o.moveReset ∧
    tick g o = some ⟨reset (update_direction g.snake) o.moveReset,
      g.apples, g.poison, g.rocks, g.fps⟩ := by
  have hmove : move (update_direction g.snake) o.moveReset
      = reset (update_direction g.snake) o.moveReset := by
    unfold move
    dsimp only
    rw [if_pos ⟨h3, hc⟩]
  refine ⟨hmove, ?_⟩
  have hhead : get_head_position (reset (update_direction g.snake) o.moveReset) = center := rfl
  have hrockstep : rock_step (reset (update_direction g.snake) o.moveReset) g.rocks g.fps
      o.rockReset = (reset (update_direction g.snake) o.moveReset, g.fps) := by
    unfold rock_step
    rw [if_neg (fun hmem => hrock (hhead ▸ hmem))]
  have hps : poison_step (reset (update_direction g.snake) o.moveReset) g.poison
      (occupiedOf (reset (update_direction g.snake) o.moveReset) g) o.poisonRng
      = some (reset (update_direction g.snake) o.moveReset, g.poison) := by
    unfold poison_step
    rw [if_neg (fun hcon => hpois (hhead.symm.trans hcon))]
  have hal : appleLoop center (occupiedOf (reset (update_direction g.snake) o.moveReset) g)
      g.apples 1 o.appleRngs = some (g.apples, 1) :=
    appleLoop_no_hit center _ g.apples 1 o.appleRngs happ
  unfold tick
  dsimp only
  rw [hmove, hrockstep]
  dsimp only
  rw [hps]
  dsimp only
  rw [hhead]
  rw [show (reset (update_direction g.snake) o.moveReset).length = 1 from rfl] at *
  rw [hal]
  rfl

/-- C1 witness: the amended theorem at a concrete self-colliding snake with no
rock, poison or apple on the center cell: the tick reduces to the in-place
reset with fps and items untouched. -/
theorem C1_self_collision_reset_witness :
    3 ≤ (update_direction (⟨4, [(0, 0), (20, 0), (20, 20), (0, 20)], DOWN, none, none⟩ :
        Snake)).positions.length ∧
    new_head (update_direction ⟨4, [(0, 0), (20, 0), (20, 20), (0, 20)], DOWN, none, none⟩)
      ∈ (update_direction (⟨4, [(0, 0), (20, 0), (20, 20), (0, 20)], DOWN, none, none⟩ :
        Snake)).positions.drop 2 ∧
    center ∉ [((200 : Int), (200 : Int))] ∧
    center ≠ ((600 : Int), (460 : Int)) ∧
    center ∉ [((100 : Int), (0 : Int))] ∧
    (move (update_direction ⟨4, [(0, 0), (20, 0), (20, 20), (0, 20)], DOWN, none, none⟩) 1
        = reset (update_direction ⟨4, [(0, 0), (20, 0), (20, 20), (0, 20)], DOWN, none, none⟩) 1 ∧
     tick ⟨⟨4, [(0, 0), (20, 0), (20, 20), (0, 20)], DOWN, none, none⟩,
          [(100, 0)], (600, 460), [(200, 200)], 12⟩ ⟨1, 2, [], []⟩
        = some ⟨reset (update_direction ⟨4, [(0, 0), (20, 0), (20, 20), (0, 20)], DOWN, none, none⟩) 1,
            [(100, 0)], (600, 460), [(200, 200)], 12⟩) :=
  ⟨by decide, by decide, by decide, by decide, by decide,
   C1_self_collision_reset
     ⟨⟨4, [(0, 0), (20, 0), (20, 20), (0, 20)], DOWN, none, none⟩,
      [(100, 0)], (600, 460), [(200, 200)], 12⟩ ⟨1, 2, [], []⟩
     (by decide) (by decide) (by decide) (by decide) (by decide)⟩

end TheSnake
